import Mathlib

/-!
Shallow embedding of the SmartOptions command-line parsing library
(`inc/SmartOptions/SmartOptions.hpp`) and proofs about its parsing engine
`ProcessCommandArgs`, its registration calls (`AddFlag`, `AddOption`,
`AddPositionalArgument`) and its diagnostic-message construction.

Modelling conventions:
- C strings (`const char *`) are modelled as `List Char` (`Str`); the C++
  code never reads past the terminating NUL on registered identifiers, and
  reading `s[0]` of an empty body is modelled as the NUL character.
- The caller-owned destinations (`bool *` / `const char **`) are modelled as
  a store mapping a destination identifier (`Nat`) to its current value;
  `NULL` string destinations are `Option.none`.  Two rules that alias the
  same C++ pointer are modelled by two rules carrying the same identifier.
- Help/usage printing (`std::cout`, `PrintHelp`) is output-only and affects
  no destination and no status; it is not modelled.  The diagnostic strings
  that the engine *builds* (`strPosArgErrMsg`, `strErrMessage`) are
  modelled, up to the point where the surplus-argument fixup has been
  applied (the later "The mandatory parameters are ..." suffix is built
  only on the print path under `autoPrintHelp`).
-/

/-- Character strings of the C++ code, as lists of characters. -/
abbrev Str := List Char

/-- Converts a Lean string literal into the `Str` model. -/
def strOf (s : String) : Str := s.data

/-- Reads `s[0]` of a C string: the NUL terminator when the string is empty.
Mirrors `(*(char*)token)` after `token++` in `ProcessCommandArgs`. -/
def firstChar (s : Str) : Char := s.headD (Char.ofNat 0)

/-- Mirror of `struct SmartOptionsFlagArg` (the matched fields plus the
destination; display-only fields `prefixLong`/`helpString` are carried but
never inspected by the engine). -/
structure SmartOptionsFlagArg where
  prefixShort : Char
  prefixLong : Str
  helpString : Str
  dest : Nat
deriving Repr, DecidableEq

/-- Mirror of `struct SmartOptionsOptionArg`. -/
structure SmartOptionsOptionArg where
  prefixShort : Char
  prefixLong : Str
  metaVariable : Str
  helpString : Str
  dest : Nat
deriving Repr, DecidableEq

/-- Mirror of `struct SmartOptionsPositionalArg`. -/
structure SmartOptionsPositionalArg where
  metaVariable : Str
  helpString : Str
  dest : Nat
deriving Repr, DecidableEq

/-- Mirror of `enum SMARTOPTIONS_STATUS`. -/
inductive SMARTOPTIONS_STATUS where
  | SUCCESS
  | INVALID_ARGUMENT
  | INVALID_NUMBEROF_ARGUMENTS
  | SYSTEM_ERROR
deriving Repr, DecidableEq

/-- The caller-owned destination storage: `bool *` destinations and
`const char **` destinations, addressed by destination identifiers.
An unset (`NULL`) string destination is `none`. -/
structure Store where
  boolStore : Nat → Bool
  strStore : Nat → Option Str

/-- Writes a `bool` destination (`*destVariable = b`). -/
def setBool (s : Store) (d : Nat) (b : Bool) : Store :=
  { s with boolStore := fun n => if n = d then b else s.boolStore n }

/-- Writes a string destination (`*destVariable = v`). -/
def setStr (s : Store) (d : Nat) (v : Option Str) : Store :=
  { s with strStore := fun n => if n = d then v else s.strStore n }

/-- Mirror of `class SmartOptions`: the registered rule sequences (the
`argC`/`argV`/usage/description bookkeeping carries no parsing behavior;
`autoPrintHelp` only gates printing, which is not modelled). -/
structure SmartOptions where
  appName : Str
  flags : List SmartOptionsFlagArg
  options : List SmartOptionsOptionArg
  posArgs : List SmartOptionsPositionalArg

/-- Mirror of `SmartOptions::AddFlag` together with the
`SmartOptionsFlagArg` constructor it invokes: appends the rule and
initializes the bound destination to `false`. -/
def AddFlag (so : SmartOptions) (store : Store) (prefixShort : Char)
    (prefixLong : Str) (helpString : Str) (dest : Nat) :
    SmartOptions × Store :=
  ({ so with flags := so.flags ++
      [{ prefixShort := prefixShort, prefixLong := prefixLong,
         helpString := helpString, dest := dest }] },
   setBool store dest false)

/-- Mirror of `SmartOptions::AddOption` together with the
`SmartOptionsOptionArg` constructor it invokes: appends the rule and
initializes the bound destination to `NULL`. -/
def AddOption (so : SmartOptions) (store : Store) (prefixShort : Char)
    (prefixLong : Str) (metaVariable : Str) (helpString : Str) (dest : Nat) :
    SmartOptions × Store :=
  ({ so with options := so.options ++
      [{ prefixShort := prefixShort, prefixLong := prefixLong,
         metaVariable := metaVariable, helpString := helpString,
         dest := dest }] },
   setStr store dest none)

/-- Mirror of `SmartOptions::AddPositionalArgument` together with the
`SmartOptionsPositionalArg` constructor it invokes: appends the rule.  The
constructor stores the destination pointer but, unlike the flag and option
constructors, performs no write through it, so the store is unchanged. -/
def AddPositionalArgument (so : SmartOptions) (store : Store)
    (metaVariable : Str) (helpString : Str) (dest : Nat) :
    SmartOptions × Store :=
  ({ so with posArgs := so.posArgs ++
      [{ metaVariable := metaVariable, helpString := helpString,
         dest := dest }] },
   store)

/-- First flag whose `prefixShort` equals the scanned character: mirror of
the flag loop of `ProcessCommandArgs` (registration order, first match
wins). -/
def findFlag : List SmartOptionsFlagArg → Char → Option SmartOptionsFlagArg
  | [], _ => none
  | f :: fs, c => if f.prefixShort = c then some f else findFlag fs c

/-- First option whose `prefixShort` equals the scanned character: mirror of
the option loop of `ProcessCommandArgs`.  (When the first match hits the
missing-value case the C++ loop keeps iterating, but any later match has the
same `prefixShort` and re-derives the same outcome, so the first match fully
determines the behavior.) -/
def findOption : List SmartOptionsOptionArg → Char → Option SmartOptionsOptionArg
  | [], _ => none
  | o :: os, c => if o.prefixShort = c then some o else findOption os c

/-- The mutable locals of the scanning loop of `ProcessCommandArgs`:
the store behind the destination pointers, the positional cursor
(`posArgsIt`, as the not-yet-consumed tail of `posArgs`), `posArgsCount`,
and the two message buffers. -/
structure LoopState where
  store : Store
  remPos : List SmartOptionsPositionalArg
  posArgsCount : Nat
  strPosArgErrMsg : Str
  strErrMessage : Str

/-- Mirror of the `else` (non-`'-'`) branch of the scanning loop: bind the
token to the positional rule at the cursor, or accumulate it into the
too-many-arguments message; either way count it. -/
def posStep (appName : Str) (tok : Str) (st : LoopState) : LoopState :=
  match st.remPos with
  | p :: ps =>
      { st with store := setStr st.store p.dest (some tok), remPos := ps,
                posArgsCount := st.posArgsCount + 1 }
  | [] =>
      { st with
        strPosArgErrMsg :=
          if st.strPosArgErrMsg = [] then
            st.strPosArgErrMsg ++ appName ++
              strOf ": Error, invalid number of mandatory arguments (" ++ tok
          else
            st.strPosArgErrMsg ++ strOf ", " ++ tok,
        posArgsCount := st.posArgsCount + 1 }

/-- The `": Error, missing value for '-o' option."` message recorded when an
option token has no attached value and is the last token. -/
def missingValueMsg (c : Char) : Str :=
  strOf ": Error, missing value for '-" ++ [c] ++ strOf "' option."

/-- Outcome of the scanning loop: either the early
`return SMARTOPTIONS_INVALID_ARGUMENT` taken inside the loop, or the fall
through to the post-loop validations. -/
inductive LoopResult where
  | earlyError (st : LoopState)
  | done (st : LoopState)

/-- The loop state carried by either outcome. -/
def LoopResult.state : LoopResult → LoopState
  | .earlyError st => st
  | .done st => st

/-- Mirror of the scanning loop of `ProcessCommandArgs` over the tokens
`argv[1..argc-1]`.  For a `'-'` token the body is `token.tail`; flags are
scanned first, then options; an option value is taken attached
(`token[1] != '\0'`) or from the next token (consumed by `argV[++index]`,
hence the recursion on `rest'`); an unhandled `'-'` token returns early. -/
def processTokens (so : SmartOptions) : List Str → LoopState → LoopResult
  | [], st => .done st
  | tok :: rest, st =>
    if tok.head? = some '-' then
      match findFlag so.flags (firstChar tok.tail) with
      | some f => processTokens so rest
          { st with store := setBool st.store f.dest true }
      | none =>
        match findOption so.options (firstChar tok.tail) with
        | some o =>
          if tok.tail.tail ≠ [] then
            processTokens so rest
              { st with store := setStr st.store o.dest (some tok.tail.tail) }
          else
            match rest with
            | [] => .earlyError
                { st with strErrMessage := missingValueMsg o.prefixShort }
            | w :: rest' => processTokens so rest'
                { st with store := setStr st.store o.dest (some w) }
        | none => .earlyError st
    else
      processTokens so rest (posStep so.appName tok st)

/-- Index of the last `','` in a string, mirror of `std::string::rfind(",")`
(`none` for `npos`). -/
def rfindComma : Str → Option Nat
  | [] => none
  | c :: rest =>
    match rfindComma rest with
    | some i => some (i + 1)
    | none => if c = ',' then some 0 else none

/-- Mirror of `strPosArgErrMsg.replace(loc, 1, " &")` at
`loc = strPosArgErrMsg.rfind(",")`: replace the last comma by `" &"`.
(The C++ message always contains a comma, so the `npos` case cannot
arise there; it is modelled as the identity.) -/
def replaceLastComma (l : Str) : Str :=
  match rfindComma l with
  | none => l
  | some i => l.take i ++ strOf " &" ++ l.drop (i + 1)

/-- Mirror of the surplus-argument fixup after the loop: append `")"`,
then rewrite the last comma to `" &"`. -/
def fixSurplusMsg (msg : Str) : Str := replaceLastComma (msg ++ [')'])

/-- The observables of one `ProcessCommandArgs` call: the returned status,
the destination store, and the diagnostic buffers (the positional one as it
stands after the surplus fixup and the missing-mandatory default). -/
structure ParseResult where
  status : SMARTOPTIONS_STATUS
  store : Store
  posArgErrMsg : Str
  errMessage : Str

/-- The loop state at entry of the scan. -/
def initState (so : SmartOptions) (store : Store) : LoopState :=
  { store := store, remPos := so.posArgs, posArgsCount := 0,
    strPosArgErrMsg := [], strErrMessage := [] }

/-- Mirror of `SmartOptions::ProcessCommandArgs` on the tokens after
`argv[0]`: run the scanning loop; on an early error return
`INVALID_ARGUMENT`; otherwise apply the surplus fixup and compare
`posArgsCount` with the number of registered positional rules. -/
def ProcessCommandArgs (so : SmartOptions) (store : Store) (args : List Str) :
    ParseResult :=
  match processTokens so args (initState so store) with
  | .earlyError st =>
      { status := .INVALID_ARGUMENT, store := st.store,
        posArgErrMsg := st.strPosArgErrMsg, errMessage := st.strErrMessage }
  | .done st =>
      let fixedMsg :=
        if st.strPosArgErrMsg = [] then st.strPosArgErrMsg
        else fixSurplusMsg st.strPosArgErrMsg
      if st.posArgsCount ≠ so.posArgs.length then
        { status := .INVALID_NUMBEROF_ARGUMENTS, store := st.store,
          posArgErrMsg :=
            if fixedMsg = [] then
              so.appName ++ strOf ": Error, invalid number of mandatory arguments"
            else fixedMsg,
          errMessage := st.strErrMessage }
      else
        { status := .SUCCESS, store := st.store, posArgErrMsg := fixedMsg,
          errMessage := st.strErrMessage }

/-! ## Specification devices

`scanConfigs` mirrors the control flow of `processTokens` and records, for
each loop iteration actually executed, the token inspected at that
iteration together with the tokens after it.  A token consumed as an
option value is skipped by `argV[++index]` and therefore never appears;
tokens after an early `return` never appear either. -/

/-- The (token, following-tokens) configurations visited by the scanning
loop, in scan order. -/
def scanConfigs (so : SmartOptions) : List Str → List (Str × List Str)
  | [] => []
  | tok :: rest =>
    (tok, rest) ::
      (if tok.head? = some '-' then
        match findFlag so.flags (firstChar tok.tail) with
        | some _ => scanConfigs so rest
        | none =>
          match findOption so.options (firstChar tok.tail) with
          | some _ =>
            if tok.tail.tail ≠ [] then scanConfigs so rest
            else scanConfigs so rest.tail
          | none => []
      else scanConfigs so rest)
termination_by toks => toks.length
decreasing_by
  all_goals simp [List.length_tail]
  all_goals omega

/-- The tokens the scanning loop actually inspects, in scan order. -/
def scannedTokens (so : SmartOptions) (args : List Str) : List Str :=
  (scanConfigs so args).map Prod.fst

/-- The error taxonomy's `INVALID_ARGUMENT` condition at one visited
configuration: a `'-'` token whose first body character matches no
registered flag and either matches no registered option, or matches one
while the token has no attached value and no token follows it. -/
def invalidCond (so : SmartOptions) (tok : Str) (rest : List Str) : Bool :=
  (tok.head? == some '-') &&
    (match findFlag so.flags (firstChar tok.tail) with
     | some _ => false
     | none =>
       match findOption so.options (firstChar tok.tail) with
       | none => true
       | some _ => tok.tail.tail.isEmpty && rest.isEmpty)

/-- The surplus tokens joined by `", "`. -/
def joinComma : List Str → Str
  | [] => []
  | [t] => t
  | t :: u :: ts => t ++ strOf ", " ++ joinComma (u :: ts)

/-- The loop state of the pure-positional run: `posStep` folded over the
tokens (the value `processTokens` computes when no token starts with
`'-'`). -/
def posConsume (so : SmartOptions) : List Str → LoopState → LoopState
  | [], st => st
  | tok :: rest, st => posConsume so rest (posStep so.appName tok st)

/-! ## Step equations of the scanning loop -/

/-- Step equation: a token whose first body character matches a flag. -/
theorem processTokens_flag (so : SmartOptions) (tok : Str) (rest : List Str)
    (st : LoopState) (f : SmartOptionsFlagArg)
    (h1 : tok.head? = some '-')
    (hf : findFlag so.flags (firstChar tok.tail) = some f) :
    processTokens so (tok :: rest) st =
      processTokens so rest { st with store := setBool st.store f.dest true } := by
  simp [processTokens, h1, hf]

/-- Step equation: an option token with an attached value. -/
theorem processTokens_optAttached (so : SmartOptions) (tok : Str)
    (rest : List Str) (st : LoopState) (o : SmartOptionsOptionArg)
    (h1 : tok.head? = some '-')
    (hf : findFlag so.flags (firstChar tok.tail) = none)
    (ho : findOption so.options (firstChar tok.tail) = some o)
    (ha : tok.tail.tail ≠ []) :
    processTokens so (tok :: rest) st =
      processTokens so rest
        { st with store := setStr st.store o.dest (some tok.tail.tail) } := by
  simp [processTokens, h1, hf, ho, ha]

/-- Step equation: an option token with no attached value and no token
after it records the missing-value message and is left unhandled. -/
theorem processTokens_optMissing (so : SmartOptions) (tok : Str)
    (st : LoopState) (o : SmartOptionsOptionArg)
    (h1 : tok.head? = some '-')
    (hf : findFlag so.flags (firstChar tok.tail) = none)
    (ho : findOption so.options (firstChar tok.tail) = some o)
    (ha : tok.tail.tail = []) :
    processTokens so [tok] st =
      .earlyError { st with strErrMessage := missingValueMsg o.prefixShort } := by
  simp [processTokens, h1, hf, ho, ha]

/-- Step equation: an option token with no attached value consumes the next
token verbatim as its value and the scan resumes after that token. -/
theorem processTokens_optConsume (so : SmartOptions) (tok w : Str)
    (rest' : List Str) (st : LoopState) (o : SmartOptionsOptionArg)
    (h1 : tok.head? = some '-')
    (hf : findFlag so.flags (firstChar tok.tail) = none)
    (ho : findOption so.options (firstChar tok.tail) = some o)
    (ha : tok.tail.tail = []) :
    processTokens so (tok :: w :: rest') st =
      processTokens so rest' { st with store := setStr st.store o.dest (some w) } := by
  simp [processTokens, h1, hf, ho, ha]

/-- Step equation: a `'-'` token matching no flag and no option returns
early with the state unchanged. -/
theorem processTokens_invalid (so : SmartOptions) (tok : Str)
    (rest : List Str) (st : LoopState)
    (h1 : tok.head? = some '-')
    (hf : findFlag so.flags (firstChar tok.tail) = none)
    (ho : findOption so.options (firstChar tok.tail) = none) :
    processTokens so (tok :: rest) st = .earlyError st := by
  simp [processTokens, h1, hf, ho]

/-- Step equation: a non-`'-'` token goes to the positional branch. -/
theorem processTokens_pos (so : SmartOptions) (tok : Str) (rest : List Str)
    (st : LoopState) (h1 : tok.head? ≠ some '-') :
    processTokens so (tok :: rest) st =
      processTokens so rest (posStep so.appName tok st) := by
  simp [processTokens, h1]

/-! ## Store and matcher lemmas -/

theorem setBool_self (s : Store) (d : Nat) (b : Bool) :
    (setBool s d b).boolStore d = b := by simp [setBool]

theorem setBool_ne (s : Store) (d d' : Nat) (b : Bool) (h : d ≠ d') :
    (setBool s d' b).boolStore d = s.boolStore d := by simp [setBool, h]

theorem setBool_strStore (s : Store) (d : Nat) (b : Bool) :
    (setBool s d b).strStore = s.strStore := rfl

theorem setStr_self (s : Store) (d : Nat) (v : Option Str) :
    (setStr s d v).strStore d = v := by simp [setStr]

theorem setStr_ne (s : Store) (d d' : Nat) (v : Option Str) (h : d ≠ d') :
    (setStr s d' v).strStore d = s.strStore d := by simp [setStr, h]

theorem setStr_boolStore (s : Store) (d : Nat) (v : Option Str) :
    (setStr s d v).boolStore = s.boolStore := rfl

/-- A flag found by the scan is a registered flag with the scanned
character. -/
theorem findFlag_mem_eq :
    ∀ (fs : List SmartOptionsFlagArg) (c : Char) (f : SmartOptionsFlagArg),
      findFlag fs c = some f → f ∈ fs ∧ f.prefixShort = c := by
  intro fs c
  induction fs with
  | nil => intro f h; simp [findFlag] at h
  | cons g gs ih =>
    intro f h
    by_cases hg : g.prefixShort = c
    · simp [findFlag, hg] at h
      subst h
      exact ⟨List.mem_cons_self .., hg⟩
    · simp [findFlag, hg] at h
      rcases ih f h with ⟨hm, hc⟩
      exact ⟨List.mem_cons_of_mem _ hm, hc⟩

/-- An option found by the scan is a registered option with the scanned
character. -/
theorem findOption_mem_eq :
    ∀ (os : List SmartOptionsOptionArg) (c : Char) (o : SmartOptionsOptionArg),
      findOption os c = some o → o ∈ os ∧ o.prefixShort = c := by
  intro os c
  induction os with
  | nil => intro o h; simp [findOption] at h
  | cons g gs ih =>
    intro o h
    by_cases hg : g.prefixShort = c
    · simp [findOption, hg] at h
      subst h
      exact ⟨List.mem_cons_self .., hg⟩
    · simp [findOption, hg] at h
      rcases ih o h with ⟨hm, hc⟩
      exact ⟨List.mem_cons_of_mem _ hm, hc⟩

/-- Within the flag sequence, registration order is scan order: the first
registered flag carrying the scanned character is the one matched. -/
theorem findFlag_first (fs₁ fs₂ : List SmartOptionsFlagArg)
    (f : SmartOptionsFlagArg) (c : Char)
    (h₁ : ∀ f' ∈ fs₁, f'.prefixShort ≠ c) (h₂ : f.prefixShort = c) :
    findFlag (fs₁ ++ f :: fs₂) c = some f := by
  induction fs₁ with
  | nil => simp [findFlag, h₂]
  | cons g gs ih =>
    have hg : g.prefixShort ≠ c := h₁ g (List.mem_cons_self ..)
    simp only [List.cons_append, findFlag, hg, if_neg]
    exact ih fun f' hf' => h₁ f' (List.mem_cons_of_mem _ hf')

/-- Within the option sequence, registration order is scan order: the first
registered option carrying the scanned character is the one matched. -/
theorem findOption_first (os₁ os₂ : List SmartOptionsOptionArg)
    (o : SmartOptionsOptionArg) (c : Char)
    (h₁ : ∀ o' ∈ os₁, o'.prefixShort ≠ c) (h₂ : o.prefixShort = c) :
    findOption (os₁ ++ o :: os₂) c = some o := by
  induction os₁ with
  | nil => simp [findOption, h₂]
  | cons g gs ih =>
    have hg : g.prefixShort ≠ c := h₁ g (List.mem_cons_self ..)
    simp only [List.cons_append, findOption, hg, if_neg]
    exact ih fun o' ho' => h₁ o' (List.mem_cons_of_mem _ ho')

/-- A flag is among those matched only when some registered flag has the
scanned character. -/
theorem findFlag_isSome_of_mem (fs : List SmartOptionsFlagArg) (c : Char)
    (h : ∃ f ∈ fs, f.prefixShort = c) : ∃ f, findFlag fs c = some f := by
  induction fs with
  | nil => simp at h
  | cons g gs ih =>
    by_cases hg : g.prefixShort = c
    · exact ⟨g, by simp [findFlag, hg]⟩
    · rcases h with ⟨f, hf, hc⟩
      rcases List.mem_cons.mp hf with rfl | hf'
      · exact absurd hc hg
      · rcases ih ⟨f, hf', hc⟩ with ⟨f₀, h₀⟩
        exact ⟨f₀, by simp [findFlag, hg, h₀]⟩

/-! ## The pure-positional run -/

/-- Unfolding of `posStep` when positional rules remain. -/
theorem posStep_cons (a tok : Str) (st : LoopState)
    (p : SmartOptionsPositionalArg) (ps : List SmartOptionsPositionalArg)
    (h : st.remPos = p :: ps) :
    posStep a tok st =
      { st with store := setStr st.store p.dest (some tok), remPos := ps,
                posArgsCount := st.posArgsCount + 1 } := by
  unfold posStep; rw [h]

/-- Unfolding of `posStep` on a surplus token. -/
theorem posStep_nil (a tok : Str) (st : LoopState) (h : st.remPos = []) :
    posStep a tok st =
      { st with
        strPosArgErrMsg :=
          if st.strPosArgErrMsg = [] then
            st.strPosArgErrMsg ++ a ++
              strOf ": Error, invalid number of mandatory arguments (" ++ tok
          else st.strPosArgErrMsg ++ strOf ", " ++ tok,
        posArgsCount := st.posArgsCount + 1 } := by
  unfold posStep; rw [h]

/-- When no token is flag-shaped, the scanning loop is exactly the
positional fold and never errors. -/
theorem processTokens_posOnly (so : SmartOptions) :
    ∀ (toks : List Str) (st : LoopState),
      (∀ t ∈ toks, t.head? ≠ some '-') →
      processTokens so toks st = .done (posConsume so toks st) := by
  intro toks
  induction toks with
  | nil => intro st _; rfl
  | cons tok rest ih =>
    intro st h
    rw [processTokens_pos so tok rest st (h tok (List.mem_cons_self ..)),
        posConsume]
    exact ih _ fun t ht => h t (List.mem_cons_of_mem _ ht)

theorem posConsume_append (so : SmartOptions) :
    ∀ (xs ys : List Str) (st : LoopState),
      posConsume so (xs ++ ys) st = posConsume so ys (posConsume so xs st) := by
  intro xs
  induction xs with
  | nil => intro ys st; rfl
  | cons x xs ih =>
    intro ys st
    simp only [List.cons_append, posConsume, List.append_eq, ih]

theorem posConsume_count (so : SmartOptions) :
    ∀ (toks : List Str) (st : LoopState),
      (posConsume so toks st).posArgsCount = st.posArgsCount + toks.length := by
  intro toks
  induction toks with
  | nil => intro st; rfl
  | cons tok rest ih =>
    intro st
    have hstep : (posStep so.appName tok st).posArgsCount = st.posArgsCount + 1 := by
      unfold posStep; cases h : st.remPos <;> simp
    rw [posConsume, ih, hstep]
    simp only [List.length_cons]
    omega

theorem posConsume_remPos (so : SmartOptions) :
    ∀ (toks : List Str) (st : LoopState),
      (posConsume so toks st).remPos = st.remPos.drop toks.length := by
  intro toks
  induction toks with
  | nil => intro st; rfl
  | cons tok rest ih =>
    intro st
    have hstep : (posStep so.appName tok st).remPos = st.remPos.tail := by
      unfold posStep; cases h : st.remPos <;> simp
    rw [posConsume, ih, hstep, List.drop_tail]
    simp

/-- Frame property of the positional fold: a destination that belongs to no
remaining positional rule is never written. -/
theorem posConsume_strFrame (so : SmartOptions) :
    ∀ (toks : List Str) (st : LoopState) (d : Nat),
      d ∉ st.remPos.map (fun p => p.dest) →
      (posConsume so toks st).store.strStore d = st.store.strStore d := by
  intro toks
  induction toks with
  | nil => intro st d _; rfl
  | cons tok rest ih =>
    intro st d hd
    rw [posConsume]
    cases h : st.remPos with
    | nil =>
      rw [posStep_nil so.appName tok st h]
      exact ih _ d (by simp [h])
    | cons p ps =>
      rw [posStep_cons so.appName tok st p ps h]
      rw [h] at hd
      simp only [List.map_cons, List.mem_cons, not_or] at hd
      rw [ih _ d (by simpa using hd.2)]
      exact setStr_ne _ d p.dest _ hd.1

/-- The positional fold leaves the message buffer alone while rules
remain for every token. -/
theorem posConsume_msg_preserved (so : SmartOptions) :
    ∀ (toks : List Str) (st : LoopState),
      toks.length ≤ st.remPos.length →
      (posConsume so toks st).strPosArgErrMsg = st.strPosArgErrMsg := by
  intro toks
  induction toks with
  | nil => intro st _; rfl
  | cons tok rest ih =>
    intro st hlen
    cases h : st.remPos with
    | nil => rw [h] at hlen; simp at hlen
    | cons p ps =>
      rw [posConsume, posStep_cons so.appName tok st p ps h]
      rw [h] at hlen
      simp only [List.length_cons] at hlen
      exact ih _ (by simpa using Nat.le_of_succ_le_succ hlen)

/-- In-order binding: after the positional fold, the `i`-th remaining rule's
destination holds the `i`-th token (destinations pairwise distinct). -/
theorem posConsume_binds (so : SmartOptions) :
    ∀ (toks : List Str) (st : LoopState) (i : Nat)
      (hi : i < toks.length) (hp : i < st.remPos.length),
      (st.remPos.map (fun p => p.dest)).Nodup →
      (posConsume so toks st).store.strStore ((st.remPos.get ⟨i, hp⟩).dest)
        = some (toks.get ⟨i, hi⟩) := by
  intro toks
  induction toks with
  | nil => intro st i hi; simp at hi
  | cons tok rest ih =>
    rintro ⟨sstore, srem, scount, smsg, serr⟩ i hi hp hnd
    cases srem with
    | nil => simp at hp
    | cons p ps =>
      rw [posConsume, posStep_cons so.appName tok _ p ps rfl]
      simp only [List.map_cons, List.nodup_cons] at hnd
      cases i with
      | zero =>
        simp only [List.get]
        rw [posConsume_strFrame so rest _ p.dest (by simpa using hnd.1)]
        exact setStr_self sstore p.dest (some tok)
      | succ j =>
        have hp' : j < ps.length := by simpa using Nat.lt_of_succ_lt_succ hp
        have hi' : j < rest.length := by simpa using Nat.lt_of_succ_lt_succ hi
        have := ih ⟨setStr sstore p.dest (some tok), ps, scount + 1, smsg, serr⟩
          j hi' hp' hnd.2
        simpa [List.get] using this

/-- The returned store is the store of the final loop state. -/
theorem ProcessCommandArgs_store (so : SmartOptions) (store : Store)
    (args : List Str) :
    (ProcessCommandArgs so store args).store =
      (processTokens so args (initState so store)).state.store := by
  unfold ProcessCommandArgs
  cases h : processTokens so args (initState so store) with
  | earlyError st => simp [LoopResult.state]
  | done st =>
    simp only [LoopResult.state]
    by_cases hc : st.posArgsCount ≠ so.posArgs.length <;> simp [hc]

/-- Unfolding of `ProcessCommandArgs` when the scan falls through. -/
theorem ProcessCommandArgs_done (so : SmartOptions) (store : Store)
    (args : List Str) (st : LoopState)
    (h : processTokens so args (initState so store) = .done st) :
    ProcessCommandArgs so store args =
      (let fixedMsg :=
        if st.strPosArgErrMsg = [] then st.strPosArgErrMsg
        else fixSurplusMsg st.strPosArgErrMsg
      if st.posArgsCount ≠ so.posArgs.length then
        { status := .INVALID_NUMBEROF_ARGUMENTS, store := st.store,
          posArgErrMsg :=
            if fixedMsg = [] then
              so.appName ++ strOf ": Error, invalid number of mandatory arguments"
            else fixedMsg,
          errMessage := st.strErrMessage }
      else
        { status := .SUCCESS, store := st.store, posArgErrMsg := fixedMsg,
          errMessage := st.strErrMessage }) := by
  unfold ProcessCommandArgs
  rw [h]

/-- Unfolding of `ProcessCommandArgs` on the early error return. -/
theorem ProcessCommandArgs_earlyError (so : SmartOptions) (store : Store)
    (args : List Str) (st : LoopState)
    (h : processTokens so args (initState so store) = .earlyError st) :
    ProcessCommandArgs so store args =
      { status := .INVALID_ARGUMENT, store := st.store,
        posArgErrMsg := st.strPosArgErrMsg, errMessage := st.strErrMessage } := by
  unfold ProcessCommandArgs
  rw [h]

/-- C1.  Arity exactness: with only positional-shaped tokens (none starting
with `'-'`) and pairwise-distinct positional destinations, supplying exactly
as many tokens as registered positional rules returns `SUCCESS` and binds
the `i`-th destination to the `i`-th token; one token fewer returns
`INVALID_NUMBEROF_ARGUMENTS`; one token more also returns
`INVALID_NUMBEROF_ARGUMENTS` while the first `N` tokens are still bound in
order. -/
theorem claim_c1_arity_exactness (so : SmartOptions) (store : Store)
    (args : List Str)
    (hargs : ∀ t ∈ args, t.head? ≠ some '-')
    (hnd : (so.posArgs.map (fun p => p.dest)).Nodup) :
    (args.length = so.posArgs.length →
       (ProcessCommandArgs so store args).status = .SUCCESS ∧
       ∀ (i : Nat) (hi : i < args.length) (hp : i < so.posArgs.length),
         (ProcessCommandArgs so store args).store.strStore
             ((so.posArgs.get ⟨i, hp⟩).dest) = some (args.get ⟨i, hi⟩)) ∧
    (args.length + 1 = so.posArgs.length →
       (ProcessCommandArgs so store args).status = .INVALID_NUMBEROF_ARGUMENTS) ∧
    (args.length = so.posArgs.length + 1 →
       (ProcessCommandArgs so store args).status = .INVALID_NUMBEROF_ARGUMENTS ∧
       ∀ (i : Nat) (hi : i < args.length) (hp : i < so.posArgs.length),
         (ProcessCommandArgs so store args).store.strStore
             ((so.posArgs.get ⟨i, hp⟩).dest) = some (args.get ⟨i, hi⟩)) := by
  have hdone := processTokens_posOnly so args (initState so store) hargs
  have hcount := posConsume_count so args (initState so store)
  have h0 : (initState so store).posArgsCount = 0 := rfl
  rw [h0] at hcount
  have hbind : ∀ (i : Nat) (hi : i < args.length) (hp : i < so.posArgs.length),
      (ProcessCommandArgs so store args).store.strStore
          ((so.posArgs.get ⟨i, hp⟩).dest) = some (args.get ⟨i, hi⟩) := by
    intro i hi hp
    rw [ProcessCommandArgs_store so store args, hdone]
    exact posConsume_binds so args (initState so store) i hi hp hnd
  refine ⟨fun heq => ?_, fun hlt => ?_, fun hgt => ?_⟩
  · refine ⟨?_, hbind⟩
    rw [ProcessCommandArgs_done so store args _ hdone]
    have : ¬ (posConsume so args (initState so store)).posArgsCount ≠ so.posArgs.length := by
      rw [hcount]; omega
    simp [this]
  · rw [ProcessCommandArgs_done so store args _ hdone]
    have : (posConsume so args (initState so store)).posArgsCount ≠ so.posArgs.length := by
      rw [hcount]; omega
    simp [this]
  · refine ⟨?_, hbind⟩
    rw [ProcessCommandArgs_done so store args _ hdone]
    have : (posConsume so args (initState so store)).posArgsCount ≠ so.posArgs.length := by
      rw [hcount]; omega
    simp [this]

/-- A store with every flag destination `false` and every string
destination `NULL`, for concrete instantiations. -/
def emptyStore : Store := { boolStore := fun _ => false, strStore := fun _ => none }

/-- A registry with two positional rules, for concrete instantiations. -/
def soTwoPos : SmartOptions :=
  { appName := strOf "app", flags := [], options := [],
    posArgs := [{ metaVariable := strOf "p1", helpString := [], dest := 0 },
                { metaVariable := strOf "p2", helpString := [], dest := 1 }] }

/-- Witness for C1 at a registry with two positional rules and two, one and
three tokens. -/
theorem claim_c1_arity_exactness_witness :
    (ProcessCommandArgs soTwoPos emptyStore [strOf "a", strOf "b"]).status =
      .SUCCESS ∧
    (ProcessCommandArgs soTwoPos emptyStore [strOf "a", strOf "b"]).store.strStore 1 =
      some (strOf "b") ∧
    (ProcessCommandArgs soTwoPos emptyStore [strOf "a"]).status =
      .INVALID_NUMBEROF_ARGUMENTS ∧
    (ProcessCommandArgs soTwoPos emptyStore [strOf "a", strOf "b", strOf "c"]).status =
      .INVALID_NUMBEROF_ARGUMENTS := by
  have h2 := claim_c1_arity_exactness soTwoPos emptyStore [strOf "a", strOf "b"]
    (by decide) (by decide)
  have h1 := claim_c1_arity_exactness soTwoPos emptyStore [strOf "a"]
    (by decide) (by decide)
  have h3 := claim_c1_arity_exactness soTwoPos emptyStore
    [strOf "a", strOf "b", strOf "c"] (by decide) (by decide)
  refine ⟨(h2.1 (by decide)).1, ?_, h1.2.1 (by decide), h3.2.2 (by decide) |>.1⟩
  have := (h2.1 (by decide)).2 1 (by decide) (by decide)
  simpa [soTwoPos] using this

/-- A registry with no rules, for concrete instantiations. -/
def soNoRules : SmartOptions :=
  { appName := strOf "app", flags := [], options := [], posArgs := [] }

/-- C4 counterexample: `AddPositionalArgument` does not initialize its
destination — registering a positional rule over a destination currently
holding `"x"` leaves it holding `"x"`, not `NULL` as the claim states. -/
theorem claim_c4_counterexample :
    ¬ ((AddPositionalArgument soNoRules
          { boolStore := fun _ => false, strStore := fun _ => some (strOf "x") }
          (strOf "m") (strOf "h") 5).2.strStore 5 = none) := by
  decide

/-- C4 (amended): each registration call appends its rule to the
corresponding sequence; `AddFlag` initializes its bool destination to
`false` and `AddOption` initializes its string destination to unset
(`NULL`), while `AddPositionalArgument` leaves its destination entirely
unchanged (its constructor performs no initializing write). -/
theorem claim_c4_registration_effects (so : SmartOptions) (store : Store)
    (c : Char) (pl m h : Str) (d : Nat) :
    ((AddFlag so store c pl h d).1.flags =
        so.flags ++ [{ prefixShort := c, prefixLong := pl, helpString := h,
                       dest := d }] ∧
     (AddFlag so store c pl h d).2.boolStore d = false) ∧
    ((AddOption so store c pl m h d).1.options =
        so.options ++ [{ prefixShort := c, prefixLong := pl,
                         metaVariable := m, helpString := h, dest := d }] ∧
     (AddOption so store c pl m h d).2.strStore d = none) ∧
    ((AddPositionalArgument so store m h d).1.posArgs =
        so.posArgs ++ [{ metaVariable := m, helpString := h, dest := d }] ∧
     (AddPositionalArgument so store m h d).2 = store) :=
  ⟨⟨rfl, setBool_self store d false⟩, ⟨rfl, setStr_self store d none⟩,
   ⟨rfl, rfl⟩⟩

/-- A registry with the single flag `a` bound to destination `0`. -/
def flagA : SmartOptionsFlagArg :=
  { prefixShort := 'a', prefixLong := [], helpString := [], dest := 0 }

def soFlagA : SmartOptions :=
  { appName := strOf "app", flags := [flagA], options := [], posArgs := [] }

/-- C10: flag matching inspects only the first body character: a token
`-c<rest>` with arbitrary non-empty trailing text sets the matched flag's
destination to `true`, the trailing text is ignored, the token counts as
handled (the scan continues with the remaining tokens), and no string
destination is touched. -/
theorem claim_c10_flag_trailing_ignored (so : SmartOptions) (st : LoopState)
    (c : Char) (restText : Str) (toks : List Str) (f : SmartOptionsFlagArg)
    (hrt : restText ≠ [])
    (hf : findFlag so.flags c = some f) :
    processTokens so (('-' :: c :: restText) :: toks) st =
      processTokens so toks { st with store := setBool st.store f.dest true } ∧
    (setBool st.store f.dest true).boolStore f.dest = true ∧
    (setBool st.store f.dest true).strStore = st.store.strStore := by
  refine ⟨?_, setBool_self st.store f.dest true, rfl⟩
  exact processTokens_flag so ('-' :: c :: restText) toks st f rfl
    (by simpa [firstChar] using hf)

/-- Witness for C10: registry `{flag a ↦ 0}`, token `-abc`. -/
theorem claim_c10_flag_trailing_ignored_witness :
    processTokens soFlagA [('-' :: 'a' :: strOf "bc")]
        (initState soFlagA emptyStore) =
      processTokens soFlagA []
        { initState soFlagA emptyStore with
          store := setBool (initState soFlagA emptyStore).store flagA.dest true } :=
  (claim_c10_flag_trailing_ignored soFlagA (initState soFlagA emptyStore)
    'a' (strOf "bc") [] flagA (by decide) (by decide)).1

/-- A registry where flag `x ↦ 0` and option `x ↦ 1` share the short
identifier `x`. -/
def soShadow : SmartOptions :=
  { appName := strOf "app",
    flags := [{ prefixShort := 'x', prefixLong := [], helpString := [],
                dest := 0 }],
    options := [{ prefixShort := 'x', prefixLong := [], metaVariable := [],
                  helpString := [], dest := 1 }],
    posArgs := [] }

/-- C5: flags are matched before options and, within each sequence,
registration order is scan order with first match winning: when the scanned
character is carried both by a flag and by some registered option, the
first-registered flag carrying it is matched, its destination is set to
`true`, and no string destination (in particular no option destination) is
written by that token; `findOption` likewise returns the first-registered
option carrying a character. -/
theorem claim_c5_match_priority (so : SmartOptions) (st : LoopState)
    (tok : Str) (rest : List Str)
    (fs₁ fs₂ : List SmartOptionsFlagArg) (f : SmartOptionsFlagArg)
    (o : SmartOptionsOptionArg)
    (h1 : tok.head? = some '-')
    (hfl : so.flags = fs₁ ++ f :: fs₂)
    (hf1 : ∀ f' ∈ fs₁, f'.prefixShort ≠ firstChar tok.tail)
    (hfc : f.prefixShort = firstChar tok.tail)
    (ho : o ∈ so.options) (hoc : o.prefixShort = firstChar tok.tail) :
    findFlag so.flags (firstChar tok.tail) = some f ∧
    processTokens so (tok :: rest) st =
      processTokens so rest { st with store := setBool st.store f.dest true } ∧
    (setBool st.store f.dest true).boolStore f.dest = true ∧
    (setBool st.store f.dest true).strStore o.dest = st.store.strStore o.dest ∧
    (∀ (os₁ os₂ : List SmartOptionsOptionArg) (o' : SmartOptionsOptionArg)
       (c : Char), (∀ x ∈ os₁, x.prefixShort ≠ c) → o'.prefixShort = c →
       findOption (os₁ ++ o' :: os₂) c = some o') := by
  have hff : findFlag so.flags (firstChar tok.tail) = some f := by
    rw [hfl]; exact findFlag_first fs₁ fs₂ f _ hf1 hfc
  exact ⟨hff, processTokens_flag so tok rest st f h1 hff,
         setBool_self st.store f.dest true, rfl,
         fun os₁ os₂ o' c h₁ h₂ => findOption_first os₁ os₂ o' c h₁ h₂⟩

/-- The shared-identifier flag and option of `soShadow`. -/
def flagX : SmartOptionsFlagArg :=
  { prefixShort := 'x', prefixLong := [], helpString := [], dest := 0 }

def optX : SmartOptionsOptionArg :=
  { prefixShort := 'x', prefixLong := [], metaVariable := [],
    helpString := [], dest := 1 }

/-- Witness for C5: registry `soShadow` (flag `x ↦ 0` shadowing option
`x ↦ 1`) on the token `-x`. -/
theorem claim_c5_match_priority_witness :
    processTokens soShadow [strOf "-x"] (initState soShadow emptyStore) =
      processTokens soShadow []
        { initState soShadow emptyStore with
          store := setBool (initState soShadow emptyStore).store flagX.dest true } :=
  (claim_c5_match_priority soShadow (initState soShadow emptyStore)
    (strOf "-x") [] [] [] flagX optX (by decide) rfl (by simp) (by decide)
    (by decide) (by decide)).2.1

/-- A registry with the single option `o ↦ 0`. -/
def optO : SmartOptionsOptionArg :=
  { prefixShort := 'o', prefixLong := [], metaVariable := [],
    helpString := [], dest := 0 }

def soOptO : SmartOptions :=
  { appName := strOf "app", flags := [], options := [optO], posArgs := [] }

/-- C6: an option token with no attached value that is not last consumes
the immediately following token verbatim as the value — whatever that token
looks like, `'-'`-prefixed or not — and the scan resumes after it, so the
consumed token is never visited by the scan (it appears in no scanned
configuration). -/
theorem claim_c6_consume_next_verbatim (so : SmartOptions) (st : LoopState)
    (tok w : Str) (rest' : List Str) (o : SmartOptionsOptionArg)
    (h1 : tok.head? = some '-')
    (hf : findFlag so.flags (firstChar tok.tail) = none)
    (ho : findOption so.options (firstChar tok.tail) = some o)
    (ha : tok.tail.tail = []) :
    processTokens so (tok :: w :: rest') st =
      processTokens so rest'
        { st with store := setStr st.store o.dest (some w) } ∧
    (setStr st.store o.dest (some w)).strStore o.dest = some w ∧
    scanConfigs so (tok :: w :: rest') = (tok, w :: rest') :: scanConfigs so rest' := by
  refine ⟨processTokens_optConsume so tok w rest' st o h1 hf ho ha,
          setStr_self st.store o.dest (some w), ?_⟩
  simp [scanConfigs, h1, hf, ho, ha]

/-- Witness for C6: registry `soOptO`, tokens `-o` then the flag-shaped
value `-x`. -/
theorem claim_c6_consume_next_verbatim_witness :
    processTokens soOptO [strOf "-o", strOf "-x"] (initState soOptO emptyStore) =
      processTokens soOptO []
        { initState soOptO emptyStore with
          store := setStr (initState soOptO emptyStore).store optO.dest
                     (some (strOf "-x")) } :=
  (claim_c6_consume_next_verbatim soOptO (initState soOptO emptyStore)
    (strOf "-o") (strOf "-x") [] optO (by decide) (by decide) (by decide)
    (by decide)).1

/-- C7: a `'-'` token handled neither as a flag nor as an option terminates
the parse immediately with `INVALID_ARGUMENT`: for the unknown-identifier
syndrome the result is the same for every list of later tokens (none is
scanned — the token's configuration is the last one — and no destination is
modified); for the missing-value syndrome (option matched, no attached
value, nothing follows) the same early stop happens with only the
missing-value message recorded. -/
theorem claim_c7_invalid_hard_stop (so : SmartOptions) (tok : Str)
    (h1 : tok.head? = some '-')
    (hf : findFlag so.flags (firstChar tok.tail) = none) :
    (findOption so.options (firstChar tok.tail) = none →
       (∀ (rest : List Str) (st : LoopState),
          processTokens so (tok :: rest) st = .earlyError st) ∧
       (∀ rest : List Str, scanConfigs so (tok :: rest) = [(tok, rest)]) ∧
       (∀ (rest : List Str) (store : Store),
          (ProcessCommandArgs so store (tok :: rest)).status =
            .INVALID_ARGUMENT ∧
          (ProcessCommandArgs so store (tok :: rest)).store = store)) ∧
    (∀ o : SmartOptionsOptionArg,
       findOption so.options (firstChar tok.tail) = some o →
       tok.tail.tail = [] →
       (∀ st : LoopState,
          processTokens so [tok] st =
            .earlyError { st with
                          strErrMessage := missingValueMsg o.prefixShort }) ∧
       (∀ store : Store,
          (ProcessCommandArgs so store [tok]).status = .INVALID_ARGUMENT ∧
          (ProcessCommandArgs so store [tok]).store = store)) := by
  constructor
  · intro ho
    refine ⟨fun rest st => processTokens_invalid so tok rest st h1 hf ho,
            fun rest => by simp [scanConfigs, h1, hf, ho], fun rest store => ?_⟩
    rw [ProcessCommandArgs_earlyError so store (tok :: rest) _
      (processTokens_invalid so tok rest (initState so store) h1 hf ho)]
    exact ⟨rfl, rfl⟩
  · intro o ho ha
    refine ⟨fun st => processTokens_optMissing so tok st o h1 hf ho ha,
            fun store => ?_⟩
    rw [ProcessCommandArgs_earlyError so store [tok] _
      (processTokens_optMissing so tok (initState so store) o h1 hf ho ha)]
    exact ⟨rfl, rfl⟩

/-- Witness for C7: the empty registry on `-z junk`: `INVALID_ARGUMENT`,
the store untouched, and the trailing token never scanned. -/
theorem claim_c7_invalid_hard_stop_witness :
    (ProcessCommandArgs soNoRules emptyStore [strOf "-z", strOf "junk"]).status =
      .INVALID_ARGUMENT ∧
    (ProcessCommandArgs soNoRules emptyStore [strOf "-z", strOf "junk"]).store =
      emptyStore ∧
    scanConfigs soNoRules [strOf "-z", strOf "junk"] =
      [(strOf "-z", [strOf "junk"])] := by
  have h := (claim_c7_invalid_hard_stop soNoRules (strOf "-z") (by decide)
    (by decide)).1 (by decide)
  exact ⟨(h.2.2 [strOf "junk"] emptyStore).1, (h.2.2 [strOf "junk"] emptyStore).2,
         h.2.1 [strOf "junk"]⟩

/-- C3: for a matched option (its identifier shadowed by no flag and by no
earlier option) and any non-empty value, the attached form `-ovalue` and
the separated form `-o value` both bind the option's destination to the
value, and with no positional rules registered both parses return
`SUCCESS`. -/
theorem claim_c3_attached_separated_bind (so : SmartOptions) (store : Store)
    (o : SmartOptionsOptionArg) (v : Str)
    (hpos : so.posArgs = [])
    (hf : findFlag so.flags o.prefixShort = none)
    (ho : findOption so.options o.prefixShort = some o)
    (hv : v ≠ []) :
    ((ProcessCommandArgs so store [('-' :: o.prefixShort :: v)]).status =
       .SUCCESS ∧
     (ProcessCommandArgs so store
         [('-' :: o.prefixShort :: v)]).store.strStore o.dest = some v) ∧
    ((ProcessCommandArgs so store [['-', o.prefixShort], v]).status =
       .SUCCESS ∧
     (ProcessCommandArgs so store
         [['-', o.prefixShort], v]).store.strStore o.dest = some v) := by
  have hcnt : so.posArgs.length = 0 := by rw [hpos]; rfl
  constructor
  · have e := processTokens_optAttached so ('-' :: o.prefixShort :: v) []
      (initState so store) o rfl (by simpa [firstChar] using hf)
      (by simpa [firstChar] using ho) (by simpa using hv)
    have hdone : processTokens so [('-' :: o.prefixShort :: v)]
        (initState so store) =
        .done { initState so store with
                store := setStr store o.dest (some v) } := by
      rw [e]; rfl
    rw [ProcessCommandArgs_done so store _ _ hdone]
    constructor
    · simp [initState, hcnt]
    · simp only [initState]
      split
      · exact setStr_self store o.dest (some v)
      · exact setStr_self store o.dest (some v)
  · have e := processTokens_optConsume so ['-', o.prefixShort] v []
      (initState so store) o rfl (by simpa [firstChar] using hf)
      (by simpa [firstChar] using ho) rfl
    have hdone : processTokens so [['-', o.prefixShort], v]
        (initState so store) =
        .done { initState so store with
                store := setStr store o.dest (some v) } := by
      rw [e]; rfl
    rw [ProcessCommandArgs_done so store _ _ hdone]
    constructor
    · simp [initState, hcnt]
    · simp only [initState]
      split
      · exact setStr_self store o.dest (some v)
      · exact setStr_self store o.dest (some v)

/-- Witness for C3: registry `soOptO` on `-oFOO` and on `-o FOO`. -/
theorem claim_c3_attached_separated_bind_witness :
    ((ProcessCommandArgs soOptO emptyStore
        [('-' :: optO.prefixShort :: strOf "FOO")]).status = .SUCCESS ∧
     (ProcessCommandArgs soOptO emptyStore
        [('-' :: optO.prefixShort :: strOf "FOO")]).store.strStore optO.dest =
       some (strOf "FOO")) ∧
    ((ProcessCommandArgs soOptO emptyStore
        [['-', optO.prefixShort], strOf "FOO"]).status = .SUCCESS ∧
     (ProcessCommandArgs soOptO emptyStore
        [['-', optO.prefixShort], strOf "FOO"]).store.strStore optO.dest =
       some (strOf "FOO")) :=
  claim_c3_attached_separated_bind soOptO emptyStore optO (strOf "FOO")
    rfl (by decide) (by decide) (by decide)

/-- The scanning loop takes the early `INVALID_ARGUMENT` return exactly
when some visited configuration satisfies the invalid-argument
condition. -/
theorem processTokens_earlyError_iff (so : SmartOptions) :
    ∀ (toks : List Str) (st : LoopState),
      (∃ st', processTokens so toks st = .earlyError st') ↔
      (∃ p ∈ scanConfigs so toks, invalidCond so p.1 p.2 = true) := by
  intro toks st
  induction toks, st using processTokens.induct so with
  | case1 st => simp [processTokens, scanConfigs]
  | case2 tok rest st h1 f hf ih =>
    rw [processTokens_flag so tok rest st f h1 hf]
    have hsc : scanConfigs so (tok :: rest) =
        (tok, rest) :: scanConfigs so rest := by
      simp [scanConfigs, h1, hf]
    have hic : invalidCond so tok rest = false := by
      simp [invalidCond, hf]
    rw [hsc]
    simp only [List.mem_cons, exists_eq_or_imp, hic, false_or,
      Bool.false_eq_true, false_or]
    exact ih
  | case3 tok rest st h1 hf o ho ha ih =>
    rw [processTokens_optAttached so tok rest st o h1 hf ho ha]
    have hsc : scanConfigs so (tok :: rest) =
        (tok, rest) :: scanConfigs so rest := by
      simp [scanConfigs, h1, hf, ho, ha]
    have hic : invalidCond so tok rest = false := by
      simp [invalidCond, hf, ho, List.isEmpty_iff, ha]
    rw [hsc]
    simp only [List.mem_cons, exists_eq_or_imp, hic, false_or,
      Bool.false_eq_true, false_or]
    exact ih
  | case4 tok st h1 hf o ho ha =>
    have ha' : tok.tail.tail = [] := not_ne_iff.mp ha
    rw [processTokens_optMissing so tok st o h1 hf ho ha']
    have hsc : scanConfigs so [tok] = [(tok, [])] := by
      simp [scanConfigs, h1, hf, ho, ha']
    have hic : invalidCond so tok [] = true := by
      simp [invalidCond, h1, hf, ho, List.isEmpty_iff, ha']
    rw [hsc]
    simp [hic]
  | case5 tok st h1 hf o ho ha w rest' ih =>
    have ha' : tok.tail.tail = [] := not_ne_iff.mp ha
    rw [processTokens_optConsume so tok w rest' st o h1 hf ho ha']
    have hsc : scanConfigs so (tok :: w :: rest') =
        (tok, w :: rest') :: scanConfigs so rest' := by
      simp [scanConfigs, h1, hf, ho, ha']
    have hic : invalidCond so tok (w :: rest') = false := by
      simp [invalidCond, hf, ho]
    rw [hsc]
    simp only [List.mem_cons, exists_eq_or_imp, hic, false_or,
      Bool.false_eq_true, false_or]
    exact ih
  | case6 tok rest st h1 hf ho =>
    rw [processTokens_invalid so tok rest st h1 hf ho]
    have hsc : scanConfigs so (tok :: rest) = [(tok, rest)] := by
      simp [scanConfigs, h1, hf, ho]
    have hic : invalidCond so tok rest = true := by
      simp [invalidCond, h1, hf, ho]
    rw [hsc]
    simp [hic]
  | case7 tok rest st h1 ih =>
    rw [processTokens_pos so tok rest st h1]
    have hsc : scanConfigs so (tok :: rest) =
        (tok, rest) :: scanConfigs so rest := by
      simp [scanConfigs, h1]
    have hic : invalidCond so tok rest = false := by
      simp [invalidCond, h1]
    rw [hsc]
    simp only [List.mem_cons, exists_eq_or_imp, hic, false_or,
      Bool.false_eq_true, false_or]
    exact ih

/-- C2: `ProcessCommandArgs` returns `INVALID_ARGUMENT` if and only if the
left-to-right scan visits a token beginning with `'-'` whose first body
character matches no registered flag and no registered option's short
identifier, or one matching a registered option (and no flag) with no
attached value while no token follows it. -/
theorem claim_c2_invalid_argument_iff (so : SmartOptions) (store : Store)
    (args : List Str) :
    (ProcessCommandArgs so store args).status = .INVALID_ARGUMENT ↔
    ∃ p ∈ scanConfigs so args, invalidCond so p.1 p.2 = true := by
  rw [← processTokens_earlyError_iff so args (initState so store)]
  cases h : processTokens so args (initState so store) with
  | earlyError st =>
    rw [ProcessCommandArgs_earlyError so store args st h]
    simp [h]
  | done st =>
    rw [ProcessCommandArgs_done so store args st h]
    constructor
    · intro hst
      by_cases hc : st.posArgsCount ≠ so.posArgs.length <;> simp [hc] at hst
    · rintro ⟨st', h'⟩
      exact absurd h' (by simp)

/-- `posStep` never writes a `bool` destination. -/
theorem posStep_boolStore (a tok : Str) (st : LoopState) :
    (posStep a tok st).store.boolStore = st.store.boolStore := by
  unfold posStep
  cases st.remPos <;> rfl

/-- `posStep` leaves the positional cursor's tail. -/
theorem posStep_remPos (a tok : Str) (st : LoopState) :
    (posStep a tok st).remPos = st.remPos.tail := by
  unfold posStep
  cases st.remPos <;> rfl

/-- `posStep` writes only the destination at the cursor. -/
theorem posStep_strFrame (a tok : Str) (st : LoopState) (d : Nat)
    (hd : d ∉ st.remPos.map (fun p => p.dest)) :
    (posStep a tok st).store.strStore d = st.store.strStore d := by
  unfold posStep
  cases h : st.remPos with
  | nil => rfl
  | cons p ps =>
    rw [h] at hd
    simp only [List.map_cons, List.mem_cons, not_or] at hd
    exact setStr_ne st.store d p.dest (some tok) hd.1

theorem not_mem_map_tail {α : Type} (l : List α) (g : α → Nat) (d : Nat)
    (h : d ∉ l.map g) : d ∉ l.tail.map g := by
  cases l with
  | nil => simp
  | cons x xs => simp only [List.map_cons, List.mem_cons, not_or] at h; exact h.2

/-- Frame property of the scan for `bool` destinations: a destination not
owned by any flag the scan matches is never written. -/
theorem processTokens_boolFrame (so : SmartOptions) :
    ∀ (toks : List Str) (st : LoopState) (d : Nat),
      (∀ p ∈ scanConfigs so toks, p.1.head? = some '-' →
         ∀ f, findFlag so.flags (firstChar p.1.tail) = some f → f.dest ≠ d) →
      (processTokens so toks st).state.store.boolStore d =
        st.store.boolStore d := by
  intro toks st
  induction toks, st using processTokens.induct so with
  | case1 st => intro d h; rfl
  | case2 tok rest st h1 f hf ih =>
    intro d h
    have hsc : scanConfigs so (tok :: rest) =
        (tok, rest) :: scanConfigs so rest := by simp [scanConfigs, h1, hf]
    have hfd : f.dest ≠ d :=
      h (tok, rest) (by rw [hsc]; exact List.mem_cons_self ..) h1 f hf
    rw [processTokens_flag so tok rest st f h1 hf,
        ih d fun p hp => h p (by rw [hsc]; exact List.mem_cons_of_mem _ hp)]
    exact setBool_ne st.store d f.dest true (Ne.symm hfd)
  | case3 tok rest st h1 hf o ho ha ih =>
    intro d h
    have hsc : scanConfigs so (tok :: rest) =
        (tok, rest) :: scanConfigs so rest := by
      simp [scanConfigs, h1, hf, ho, ha]
    rw [processTokens_optAttached so tok rest st o h1 hf ho ha,
        ih d fun p hp => h p (by rw [hsc]; exact List.mem_cons_of_mem _ hp)]
    rfl
  | case4 tok st h1 hf o ho ha =>
    intro d h
    rw [processTokens_optMissing so tok st o h1 hf ho (not_ne_iff.mp ha)]
    rfl
  | case5 tok st h1 hf o ho ha w rest' ih =>
    intro d h
    have ha' : tok.tail.tail = [] := not_ne_iff.mp ha
    have hsc : scanConfigs so (tok :: w :: rest') =
        (tok, w :: rest') :: scanConfigs so rest' := by
      simp [scanConfigs, h1, hf, ho, ha']
    rw [processTokens_optConsume so tok w rest' st o h1 hf ho ha',
        ih d fun p hp => h p (by rw [hsc]; exact List.mem_cons_of_mem _ hp)]
    rfl
  | case6 tok rest st h1 hf ho =>
    intro d h
    rw [processTokens_invalid so tok rest st h1 hf ho]
    rfl
  | case7 tok rest st h1 ih =>
    intro d h
    have hsc : scanConfigs so (tok :: rest) =
        (tok, rest) :: scanConfigs so rest := by simp [scanConfigs, h1]
    rw [processTokens_pos so tok rest st h1,
        ih d fun p hp => h p (by rw [hsc]; exact List.mem_cons_of_mem _ hp)]
    rw [posStep_boolStore]

/-- Frame property of the scan for string destinations: a destination not
owned by any option the scan matches and not owned by a remaining
positional rule is never written. -/
theorem processTokens_strFrame (so : SmartOptions) :
    ∀ (toks : List Str) (st : LoopState) (d : Nat),
      (∀ p ∈ scanConfigs so toks, p.1.head? = some '-' →
         findFlag so.flags (firstChar p.1.tail) = none →
         ∀ o, findOption so.options (firstChar p.1.tail) = some o →
           o.dest ≠ d) →
      d ∉ st.remPos.map (fun p => p.dest) →
      (processTokens so toks st).state.store.strStore d =
        st.store.strStore d := by
  intro toks st
  induction toks, st using processTokens.induct so with
  | case1 st => intro d h hp; rfl
  | case2 tok rest st h1 f hf ih =>
    intro d h hp
    have hsc : scanConfigs so (tok :: rest) =
        (tok, rest) :: scanConfigs so rest := by simp [scanConfigs, h1, hf]
    rw [processTokens_flag so tok rest st f h1 hf,
        ih d (fun p hp' => h p (by rw [hsc]; exact List.mem_cons_of_mem _ hp')) hp]
    rfl
  | case3 tok rest st h1 hf o ho ha ih =>
    intro d h hp
    have hsc : scanConfigs so (tok :: rest) =
        (tok, rest) :: scanConfigs so rest := by
      simp [scanConfigs, h1, hf, ho, ha]
    have hod : o.dest ≠ d :=
      h (tok, rest) (by rw [hsc]; exact List.mem_cons_self ..) h1 hf o ho
    rw [processTokens_optAttached so tok rest st o h1 hf ho ha,
        ih d (fun p hp' => h p (by rw [hsc]; exact List.mem_cons_of_mem _ hp')) hp]
    exact setStr_ne st.store d o.dest _ (Ne.symm hod)
  | case4 tok st h1 hf o ho ha =>
    intro d h hp
    rw [processTokens_optMissing so tok st o h1 hf ho (not_ne_iff.mp ha)]
    rfl
  | case5 tok st h1 hf o ho ha w rest' ih =>
    intro d h hp
    have ha' : tok.tail.tail = [] := not_ne_iff.mp ha
    have hsc : scanConfigs so (tok :: w :: rest') =
        (tok, w :: rest') :: scanConfigs so rest' := by
      simp [scanConfigs, h1, hf, ho, ha']
    have hod : o.dest ≠ d :=
      h (tok, w :: rest') (by rw [hsc]; exact List.mem_cons_self ..) h1 hf o ho
    rw [processTokens_optConsume so tok w rest' st o h1 hf ho ha',
        ih d (fun p hp' => h p (by rw [hsc]; exact List.mem_cons_of_mem _ hp')) hp]
    exact setStr_ne st.store d o.dest _ (Ne.symm hod)
  | case6 tok rest st h1 hf ho =>
    intro d h hp
    rw [processTokens_invalid so tok rest st h1 hf ho]
    rfl
  | case7 tok rest st h1 ih =>
    intro d h hp
    have hsc : scanConfigs so (tok :: rest) =
        (tok, rest) :: scanConfigs so rest := by simp [scanConfigs, h1]
    have hp' : d ∉ (posStep so.appName tok st).remPos.map (fun p => p.dest) := by
      rw [posStep_remPos]
      exact not_mem_map_tail st.remPos _ d hp
    rw [processTokens_pos so tok rest st h1,
        ih d (fun p hp'' => h p (by rw [hsc]; exact List.mem_cons_of_mem _ hp'')) hp']
    exact posStep_strFrame so.appName tok st d hp

/-- C9: after a successful parse, a registered flag whose short identifier
matches no scanned token still holds `false`, and a registered option whose
short identifier matches no scanned token is still unset (`NULL`), assuming
all registered destinations are pairwise distinct and the destinations
started at their registered initial values. -/
theorem claim_c9_unmatched_rules_unchanged (so : SmartOptions) (store : Store)
    (args : List Str) (f : SmartOptionsFlagArg) (o : SmartOptionsOptionArg)
    (hmf : f ∈ so.flags) (hmo : o ∈ so.options)
    (hnd : (so.flags.map (fun r => r.dest) ++ so.options.map (fun r => r.dest) ++
            so.posArgs.map (fun r => r.dest)).Nodup)
    (hfu : ∀ t ∈ scannedTokens so args,
       ¬(t.head? = some '-' ∧ firstChar t.tail = f.prefixShort))
    (hou : ∀ t ∈ scannedTokens so args,
       ¬(t.head? = some '-' ∧ firstChar t.tail = o.prefixShort))
    (hsuc : (ProcessCommandArgs so store args).status = .SUCCESS)
    (hbf : store.boolStore f.dest = false)
    (hos : store.strStore o.dest = none) :
    (ProcessCommandArgs so store args).store.boolStore f.dest = false ∧
    (ProcessCommandArgs so store args).store.strStore o.dest = none := by
  have hA : (so.flags.map (fun r => r.dest)).Nodup :=
    (List.Nodup.of_append_left hnd).of_append_left
  have hB : (so.options.map (fun r => r.dest)).Nodup :=
    (List.Nodup.of_append_left hnd).of_append_right
  have hBC : ((so.options.map (fun r => r.dest)) ++
      (so.posArgs.map (fun r => r.dest))).Nodup := by
    rw [List.append_assoc] at hnd
    exact hnd.of_append_right
  have hdisj := List.disjoint_of_nodup_append hBC
  have hcondf : ∀ p ∈ scanConfigs so args, p.1.head? = some '-' →
      ∀ f', findFlag so.flags (firstChar p.1.tail) = some f' →
        f'.dest ≠ f.dest := by
    intro p hp hh f' hf' hdd
    obtain ⟨hf'mem, hf'c⟩ := findFlag_mem_eq so.flags _ f' hf'
    have heq : f' = f := List.inj_on_of_nodup_map hA hf'mem hmf hdd
    subst heq
    exact hfu p.1 (List.mem_map_of_mem Prod.fst hp) ⟨hh, hf'c.symm⟩
  have hcondo : ∀ p ∈ scanConfigs so args, p.1.head? = some '-' →
      findFlag so.flags (firstChar p.1.tail) = none →
      ∀ o', findOption so.options (firstChar p.1.tail) = some o' →
        o'.dest ≠ o.dest := by
    intro p hp hh _ o' ho' hdd
    obtain ⟨ho'mem, ho'c⟩ := findOption_mem_eq so.options _ o' ho'
    have heq : o' = o := List.inj_on_of_nodup_map hB ho'mem hmo hdd
    subst heq
    exact hou p.1 (List.mem_map_of_mem Prod.fst hp) ⟨hh, ho'c.symm⟩
  have hp0 : o.dest ∉ (initState so store).remPos.map (fun p => p.dest) :=
    fun hmem => hdisj (List.mem_map_of_mem (fun r => r.dest) hmo) hmem
  constructor
  · rw [ProcessCommandArgs_store so store args,
        processTokens_boolFrame so args (initState so store) f.dest hcondf]
    exact hbf
  · rw [ProcessCommandArgs_store so store args,
        processTokens_strFrame so args (initState so store) o.dest hcondo hp0]
    exact hos

def flagM : SmartOptionsFlagArg :=
  { prefixShort := 'a', prefixLong := [], helpString := [], dest := 0 }

def optM : SmartOptionsOptionArg :=
  { prefixShort := 'b', prefixLong := [], metaVariable := [],
    helpString := [], dest := 1 }

def soMix : SmartOptions :=
  { appName := strOf "app", flags := [flagM], options := [optM],
    posArgs := [{ metaVariable := strOf "p", helpString := [], dest := 2 }] }

/-- Witness for C9: flag `a ↦ 0` and option `b ↦ 1` are untouched by the
successful parse of the single positional token `pp`. -/
theorem claim_c9_unmatched_rules_unchanged_witness :
    (ProcessCommandArgs soMix emptyStore [['p', 'p']]).store.boolStore
        flagM.dest = false ∧
    (ProcessCommandArgs soMix emptyStore [['p', 'p']]).store.strStore
        optM.dest = none :=
  claim_c9_unmatched_rules_unchanged soMix emptyStore [['p', 'p']] flagM optM
    (by decide) (by decide) (by decide)
    (by simp [scannedTokens, scanConfigs, soMix, flagM])
    (by simp [scannedTokens, scanConfigs, soMix, optM])
    (by decide) (by decide) (by decide)

/-- The `", <tok>"` pieces appended for the second and later surplus
tokens. -/
def commaTail : List Str → Str
  | [] => []
  | t :: ts => strOf ", " ++ t ++ commaTail ts

theorem rfindComma_of_not_mem : ∀ (b : Str), ',' ∉ b → rfindComma b = none := by
  intro b
  induction b with
  | nil => intro _; rfl
  | cons c rest ih =>
    intro h
    simp only [List.mem_cons, not_or] at h
    unfold rfindComma
    rw [ih h.2]
    exact if_neg fun hc => h.1 hc.symm

theorem rfindComma_append (a b : Str) (hb : ',' ∉ b) :
    rfindComma (a ++ ',' :: b) = some a.length := by
  induction a with
  | nil =>
    simp only [List.nil_append, List.length_nil]
    unfold rfindComma
    rw [rfindComma_of_not_mem b hb]
    simp
  | cons c rest ih =>
    rw [List.cons_append]
    unfold rfindComma
    rw [ih]
    simp

theorem replaceLastComma_append (a b : Str) (hb : ',' ∉ b) :
    replaceLastComma (a ++ ',' :: b) = a ++ strOf " &" ++ b := by
  have h1 : (a ++ ',' :: b).take a.length = a := List.take_left ..
  have h3 : (a ++ ',' :: b).drop (a.length + 1) = b := by
    have h4 : a ++ ',' :: b = (a ++ [',']) ++ b := by simp
    rw [h4, show a.length + 1 = (a ++ [',']).length by simp, List.drop_left]
  unfold replaceLastComma
  rw [rfindComma_append a b hb]
  simp only [h1, h3]

theorem joinComma_cons (t : Str) (ts : List Str) :
    joinComma (t :: ts) = t ++ commaTail ts := by
  induction ts generalizing t with
  | nil => simp [joinComma, commaTail]
  | cons u ts ih =>
    rw [joinComma, ih u, commaTail]
    simp [List.append_assoc]


theorem joinComma_append_last (init : List Str) (last : Str) (h : init ≠ []) :
    joinComma (init ++ [last]) = joinComma init ++ strOf ", " ++ last := by
  induction init with
  | nil => cases h rfl
  | cons x xs ih =>
    cases xs with
    | nil => simp [joinComma]
    | cons y ys =>
      have e1 : (x :: y :: ys) ++ [last] = x :: ((y :: ys) ++ [last]) := rfl
      have e2 : (y :: ys) ++ [last] = y :: (ys ++ [last]) := rfl
      rw [e1, e2, joinComma, ← e2, ih (by simp), joinComma]
      simp [List.append_assoc]

/-- Accumulation of surplus tokens onto a non-empty message. -/
theorem posConsume_surplus_acc (so : SmartOptions) :
    ∀ (ts : List Str) (st : LoopState),
      st.remPos = [] → st.strPosArgErrMsg ≠ [] →
      (posConsume so ts st).strPosArgErrMsg =
        st.strPosArgErrMsg ++ commaTail ts := by
  intro ts
  induction ts with
  | nil => intro st _ _; simp [posConsume, commaTail]
  | cons t ts ih =>
    intro st h0 hne
    rw [posConsume, posStep_nil so.appName t st h0]
    simp only [hne, if_neg, ite_false]
    have hrw := ih
      { st with posArgsCount := st.posArgsCount + 1,
                strPosArgErrMsg := st.strPosArgErrMsg ++ strOf ", " ++ t }
      h0 (by simp [hne])
    rw [hrw]
    simp [commaTail, List.append_assoc]

/-- The message built for a non-empty run of surplus tokens. -/
theorem posConsume_surplus (so : SmartOptions) (t : Str) (ts : List Str)
    (st : LoopState) (h0 : st.remPos = []) (hmsg : st.strPosArgErrMsg = []) :
    (posConsume so (t :: ts) st).strPosArgErrMsg =
      so.appName ++ strOf ": Error, invalid number of mandatory arguments (" ++
        joinComma (t :: ts) := by
  rw [posConsume, posStep_nil so.appName t st h0]
  simp only [hmsg, if_pos, ite_true, List.nil_append]
  have hlit : strOf ": Error, invalid number of mandatory arguments (" ≠ [] := by
    decide
  have hrw := posConsume_surplus_acc so ts
    { st with posArgsCount := st.posArgsCount + 1,
              strPosArgErrMsg := so.appName ++
                strOf ": Error, invalid number of mandatory arguments (" ++ t }
    h0 (by
      intro hh
      rw [List.append_assoc] at hh
      rcases List.append_eq_nil.mp hh with ⟨h1, h2⟩
      rcases List.append_eq_nil.mp h2 with ⟨h3, h4⟩
      exact hlit h3)
  rw [hrw, joinComma_cons]
  simp [List.append_assoc]

/-- `fixSurplusMsg` never yields the empty string. -/
theorem fixSurplusMsg_ne_nil (m : Str) : fixSurplusMsg m ≠ [] := by
  unfold fixSurplusMsg replaceLastComma
  cases h : rfindComma (m ++ [')']) with
  | none => simp
  | some i =>
    intro hh
    rcases List.append_eq_nil.mp hh with ⟨h1, h2⟩
    rcases List.append_eq_nil.mp h1 with ⟨h3, h4⟩
    exact absurd h4 (by decide)

/-- A parse whose tokens are all positional-shaped and exceed the declared
positional rules returns `INVALID_NUMBEROF_ARGUMENTS` with the surplus
message joined and fixed up. -/
theorem ProcessCommandArgs_surplus (so : SmartOptions) (store : Store)
    (pre ts : List Str)
    (hargs : ∀ x ∈ pre ++ ts, x.head? ≠ some '-')
    (hlen : pre.length = so.posArgs.length)
    (hts : ts ≠ []) :
    (ProcessCommandArgs so store (pre ++ ts)).status =
      .INVALID_NUMBEROF_ARGUMENTS ∧
    (ProcessCommandArgs so store (pre ++ ts)).posArgErrMsg =
      fixSurplusMsg (so.appName ++
        strOf ": Error, invalid number of mandatory arguments (" ++
        joinComma ts) := by
  obtain ⟨t, ts', rfl⟩ := List.exists_cons_of_ne_nil hts
  have hdone := processTokens_posOnly so (pre ++ t :: ts')
    (initState so store) hargs
  have hsplit := posConsume_append so pre (t :: ts') (initState so store)
  have h1rem : (posConsume so pre (initState so store)).remPos = [] := by
    rw [posConsume_remPos]
    simp [initState, ← hlen]
  have h1msg : (posConsume so pre (initState so store)).strPosArgErrMsg = [] := by
    rw [posConsume_msg_preserved so pre (initState so store)
      (by simp [initState, hlen])]
    rfl
  have hmsg := posConsume_surplus so t ts'
    (posConsume so pre (initState so store)) h1rem h1msg
  have hmsgeq : (posConsume so (pre ++ t :: ts')
      (initState so store)).strPosArgErrMsg =
      so.appName ++ strOf ": Error, invalid number of mandatory arguments (" ++
        joinComma (t :: ts') := by
    rw [hsplit, hmsg]
  have hcount := posConsume_count so (pre ++ t :: ts') (initState so store)
  have h0c : (initState so store).posArgsCount = 0 := rfl
  rw [h0c] at hcount
  have hne : (posConsume so (pre ++ t :: ts')
      (initState so store)).posArgsCount ≠ so.posArgs.length := by
    rw [hcount, List.length_append, ← hlen]
    simp
  have hlit : strOf ": Error, invalid number of mandatory arguments (" ≠ [] := by
    decide
  have hmne : (posConsume so (pre ++ t :: ts')
      (initState so store)).strPosArgErrMsg ≠ [] := by
    rw [hmsgeq]
    intro hh
    rw [List.append_assoc] at hh
    rcases List.append_eq_nil.mp hh with ⟨h1, h2⟩
    rcases List.append_eq_nil.mp h2 with ⟨h3, h4⟩
    exact hlit h3
  rw [ProcessCommandArgs_done so store _ _ hdone]
  constructor
  · simp [hne]
  · simp [hne, hmsgeq, hlit, fixSurplusMsg_ne_nil]

/-- C8 (amended): with all tokens positional-shaped, exactly as many
leading tokens as positional rules, and a non-empty run of surplus tokens,
the parse returns `INVALID_NUMBEROF_ARGUMENTS` and the built message is the
surplus tokens joined by `", "` wrapped in
`"<appName>: Error, invalid number of mandatory arguments (...)"` with the
last comma of the whole message rewritten to `" &"`: for two or more
surplus tokens (last one comma-free) that comma is the final join
separator, giving `"(tok1, tok2 & tok3)"` as claimed; for a single
comma-free surplus token the rewrite instead hits the comma after
`"Error"`, producing `"<appName>: Error & invalid number of mandatory
arguments (<t>)"` — not the unaltered prefix the claim states. -/
theorem claim_c8_surplus_message (so : SmartOptions) (store : Store)
    (pre ts : List Str)
    (hargs : ∀ x ∈ pre ++ ts, x.head? ≠ some '-')
    (hlen : pre.length = so.posArgs.length)
    (hts : ts ≠ []) :
    (ProcessCommandArgs so store (pre ++ ts)).status =
      .INVALID_NUMBEROF_ARGUMENTS ∧
    (∀ t, ts = [t] → ',' ∉ t →
       (ProcessCommandArgs so store (pre ++ ts)).posArgErrMsg =
         so.appName ++
           strOf ": Error & invalid number of mandatory arguments (" ++
           t ++ strOf ")") ∧
    (∀ init last, init ≠ [] → ts = init ++ [last] → ',' ∉ last →
       (ProcessCommandArgs so store (pre ++ ts)).posArgErrMsg =
         so.appName ++
           strOf ": Error, invalid number of mandatory arguments (" ++
           joinComma init ++ strOf " & " ++ last ++ strOf ")") := by
  obtain ⟨hstat, hmsg⟩ := ProcessCommandArgs_surplus so store pre ts hargs hlen hts
  refine ⟨hstat, fun t h1 hc => ?_, fun init last hinit h2 hc => ?_⟩
  · subst h1
    rw [hmsg]
    have hj : joinComma [t] = t := rfl
    rw [hj]
    unfold fixSurplusMsg
    have hsplit1 : strOf ": Error, invalid number of mandatory arguments (" =
        strOf ": Error" ++ ',' ::
          strOf " invalid number of mandatory arguments (" := by decide
    have e : (so.appName ++
        strOf ": Error, invalid number of mandatory arguments (" ++ t) ++ [')'] =
        (so.appName ++ strOf ": Error") ++ ',' ::
          (strOf " invalid number of mandatory arguments (" ++ (t ++ [')'])) := by
      rw [hsplit1]
      simp [List.append_assoc]
    rw [e, replaceLastComma_append _ _ ?_]
    · have hsplit2 : strOf ": Error & invalid number of mandatory arguments (" =
          strOf ": Error" ++ strOf " &" ++
            strOf " invalid number of mandatory arguments (" := by decide
      have hparen : strOf ")" = [')'] := by decide
      rw [hsplit2, hparen]
      simp [List.append_assoc]
    · intro hmem
      rcases List.mem_append.mp hmem with hm | hm
      · exact absurd hm (by decide)
      · rcases List.mem_append.mp hm with hm' | hm'
        · exact hc hm'
        · exact absurd hm' (by decide)
  · subst h2
    rw [hmsg]
    rw [joinComma_append_last init last hinit]
    unfold fixSurplusMsg
    have hsplit3 : strOf ", " = [',', ' '] := by decide
    have e : (so.appName ++
        strOf ": Error, invalid number of mandatory arguments (" ++
        (joinComma init ++ strOf ", " ++ last)) ++ [')'] =
        (so.appName ++
          strOf ": Error, invalid number of mandatory arguments (" ++
          joinComma init) ++ ',' :: (' ' :: (last ++ [')'])) := by
      rw [hsplit3]
      simp [List.append_assoc]
    rw [e, replaceLastComma_append _ _ ?_]
    · have hsplit4 : strOf " & " = strOf " &" ++ [' '] := by decide
      have hparen : strOf ")" = [')'] := by decide
      rw [hsplit4, hparen]
      simp [List.append_assoc]
    · intro hmem
      rcases List.mem_cons.mp hmem with hm | hm
      · exact absurd hm (by decide)
      · rcases List.mem_append.mp hm with hm' | hm'
        · exact hc hm'
        · exact absurd hm' (by decide)

/-- C8 counterexample: with no positional rules and the single surplus
token `x`, application `app` builds
`"app: Error & invalid number of mandatory arguments (x)"` — the comma
after `"Error"` (the last comma of the message) is rewritten — and not the
message with unaltered prefix that the claim states. -/
theorem claim_c8_counterexample :
    (ProcessCommandArgs soNoRules emptyStore [strOf "x"]).posArgErrMsg =
      strOf "app: Error & invalid number of mandatory arguments (x)" ∧
    (ProcessCommandArgs soNoRules emptyStore [strOf "x"]).posArgErrMsg ≠
      strOf "app: Error, invalid number of mandatory arguments (x)" := by
  constructor
  · decide
  · decide

/-- Witness for C8 at `app` with no positional rules: one surplus token
`x`, and two surplus tokens `x`, `y`. -/
theorem claim_c8_surplus_message_witness :
    (ProcessCommandArgs soNoRules emptyStore [strOf "x"]).posArgErrMsg =
      soNoRules.appName ++
        strOf ": Error & invalid number of mandatory arguments (" ++
        strOf "x" ++ strOf ")" ∧
    (ProcessCommandArgs soNoRules emptyStore
        [strOf "x", strOf "y"]).posArgErrMsg =
      soNoRules.appName ++
        strOf ": Error, invalid number of mandatory arguments (" ++
        joinComma [strOf "x"] ++ strOf " & " ++ strOf "y" ++ strOf ")" := by
  constructor
  · exact (claim_c8_surplus_message soNoRules emptyStore [] [strOf "x"]
      (by decide) rfl (by decide)).2.1 (strOf "x") rfl (by decide)
  · exact (claim_c8_surplus_message soNoRules emptyStore []
      [strOf "x", strOf "y"] (by decide) rfl (by decide)).2.2
      [strOf "x"] (strOf "y") (by decide) rfl (by decide)
